import Mathlib

/-!
# Verification of the Billie invoice processing application

This development embeds the Billie frontend (React pages under
frontend/src) and the document field-extraction pipeline described by the
system specification.  JavaScript strings are modelled as Lean strings and
the relevant JavaScript string builtins are re-implemented on character
lists so that every definition is executable by kernel reduction.
JavaScript numbers are modelled as arbitrary-precision rationals; NaN is
modelled by `Option` where it can arise (the result of `parseFloat`).
-/

namespace Billie

/-! ## JavaScript string primitives, modelled on character lists -/

/-- Lowercasing of one ASCII character, as `String.prototype.toLowerCase`
acts on the ASCII range used by the application. -/
def lowerChar (c : Char) : Char :=
  if 65 ≤ c.toNat ∧ c.toNat ≤ 90 then Char.ofNat (c.toNat + 32) else c

/-- Model of `String.prototype.toLowerCase`. -/
def jsToLowerCase (s : String) : String := ⟨s.data.map lowerChar⟩

/-- Model of `String.prototype.endsWith`. -/
def jsEndsWith (s t : String) : Bool := t.data.isSuffixOf s.data

/-- Characters removed by `String.prototype.trim`. -/
def trimChars (l : List Char) : List Char :=
  ((l.dropWhile Char.isWhitespace).reverse.dropWhile Char.isWhitespace).reverse

/-- Model of `String.prototype.trim`. -/
def jsTrim (s : String) : String := ⟨trimChars s.data⟩

/-- Numeric value of a run of decimal digit characters. -/
def digitsVal (l : List Char) : ℕ :=
  l.foldl (fun a c => 10 * a + (c.toNat - 48)) 0

/-- Sign parsing step of `parseFloat`: strips one leading sign character
and reports whether it was a minus. -/
def parseSign : List Char → Bool × List Char
  | '-' :: r => (true, r)
  | '+' :: r => (false, r)
  | l => (false, l)

/-- Exponent parsing step of `parseFloat`: an `e` or `E` followed by an
optionally signed digit run; anything else contributes exponent zero, as
`parseFloat` stops at the first character it cannot use. -/
def parseExponent : List Char → ℤ
  | c :: r =>
    if c = 'e' ∨ c = 'E' then
      match r with
      | '-' :: r2 =>
        if r2.takeWhile Char.isDigit = [] then 0
        else -(digitsVal (r2.takeWhile Char.isDigit) : ℤ)
      | '+' :: r2 =>
        if r2.takeWhile Char.isDigit = [] then 0
        else (digitsVal (r2.takeWhile Char.isDigit) : ℤ)
      | r2 =>
        if r2.takeWhile Char.isDigit = [] then 0
        else (digitsVal (r2.takeWhile Char.isDigit) : ℤ)
    else 0
  | [] => 0

/-- Discrete part of `parseFloat`: leading whitespace, optional sign,
integer digits, optional fraction digits after a dot, optional exponent.
Returns `none` exactly when no digit was found (the NaN case). -/
def parseFloatParts (s : String) : Option (Bool × ℕ × List Char × ℤ) :=
  let cs := s.data.dropWhile Char.isWhitespace
  let p := parseSign cs
  let ip := p.2.takeWhile Char.isDigit
  let cs2 := p.2.dropWhile Char.isDigit
  let fcs : List Char × List Char :=
    match cs2 with
    | '.' :: r => (r.takeWhile Char.isDigit, r.dropWhile Char.isDigit)
    | l => ([], l)
  if ip = [] ∧ fcs.1 = [] then none
  else some (p.1, digitsVal ip, fcs.1, parseExponent fcs.2)

/-- Rational value of the parsed pieces of a float literal. -/
def floatOfParts : Bool × ℕ × List Char × ℤ → ℚ
  | (neg, ip, fp, e) =>
    (if neg then (-1 : ℚ) else 1) *
      ((ip : ℚ) + (digitsVal fp : ℚ) / 10 ^ fp.length) * 10 ^ e

/-- Model of the JavaScript global `parseFloat`, with NaN as `none`.
Float overflow to infinity is outside the rational model. -/
def parseFloatQ (s : String) : Option ℚ := (parseFloatParts s).map floatOfParts

/-! ## Review page (frontend/src/pages/Review.jsx)

Confidence badge, low-confidence highlight and the save handler of the
split-screen review workspace. -/

/-- The three visual confidence classifications of `ConfidenceBadge`. -/
inductive Badge
  | high
  | low
  | notDetected
deriving DecidableEq

/-- `ConfidenceBadge` from Review.jsx: `score >= 0.8` renders the high
confidence badge, otherwise `score > 0` renders the low confidence badge,
otherwise the not-detected badge. -/
def ConfidenceBadge (score : ℚ) : Badge :=
  if 0.8 ≤ score then .high
  else if 0 < score then .low
  else .notDetected

/-- `LowConfidenceHighlight` from Review.jsx: the field editor is wrapped
in a yellow highlight box exactly when `score < 0.8 && score > 0`. -/
def LowConfidenceHighlight (score : ℚ) : Bool :=
  decide (score < 0.8) && decide (0 < score)

/-- A JavaScript form value that is either a string or a (finite) number,
as handled by the typeof branches of `handleSave`. -/
inductive JVal
  | str (s : String)
  | num (q : ℚ)
deriving DecidableEq

/-- JavaScript truthiness test used by `if (!formData.vendor)` and
`if (!formData.total)`: the empty string and the number zero are falsy. -/
def isFalsy : JVal → Bool
  | .str s => decide (s = "")
  | .num q => decide (q = 0)

/-- The form state assembled at the top of the Review component. -/
structure FormData where
  file_id : String
  filename : String
  vendor : JVal
  date : String
  total : JVal
  invoice_number : String

/-- The request body handed to `createInvoice`. -/
structure InvoiceData where
  file_id : String
  filename : Option String
  vendor : JVal
  date : Option String
  total : Option ℚ
  invoice_number : Option String
  status : String

/-- Result of one press of Save and Approve or Reject: either the
validation block with the displayed error message, or the API call with
its payload. -/
inductive SaveOutcome
  | blocked (errorMessage : String)
  | call (payload : InvoiceData)

/-- Vendor validation of `handleSave`: falsy vendor, or a string vendor
that is blank after trimming, pushes the vendor error. -/
def vendorErrors (v : JVal) : List String :=
  if isFalsy v then ["Vendor is required"]
  else
    match v with
    | .str s => if jsTrim s = "" then ["Vendor is required"] else []
    | .num _ => []

/-- Total validation of `handleSave`: falsy total and blank string total
push the required error; a string that parses to NaN or to a value at
most zero, or a number at most zero, pushes the greater-than-zero error. -/
def totalErrors (t : JVal) : List String :=
  if isFalsy t then ["Total amount is required"]
  else
    match t with
    | .str s =>
      if jsTrim s = "" then ["Total amount is required"]
      else
        match parseFloatQ s with
        | none => ["Total amount must be a valid number greater than 0"]
        | some q =>
          if q ≤ 0 then ["Total amount must be a valid number greater than 0"] else []
    | .num q =>
      if q ≤ 0 then ["Total amount must be a valid number greater than 0"] else []

/-- `parseFloat` applied to a form value, as in the payload construction
`total: parseFloat(formData.total)`; a number is stringified and parsed
back, which returns it unchanged in the rational model. -/
def jsParseFloat : JVal → Option ℚ
  | .str s => parseFloatQ s
  | .num q => some q

/-- `handleSave` from Review.jsx: collects the validation errors; when any
exist, shows them joined with a period and makes no API call; otherwise it
calls `createInvoice` with empty filename, date and invoice number sent as
null and the total run through `parseFloat`. -/
def handleSave (status : String) (formData : FormData) : SaveOutcome :=
  let validationErrors := vendorErrors formData.vendor ++ totalErrors formData.total
  if validationErrors ≠ [] then
    .blocked (String.intercalate ". " validationErrors)
  else
    .call
      { file_id := formData.file_id
        filename := if formData.filename = "" then none else some formData.filename
        vendor := formData.vendor
        date := if formData.date = "" then none else some formData.date
        total := jsParseFloat formData.total
        invoice_number :=
          if formData.invoice_number = "" then none else some formData.invoice_number
        status := status }

/-- Claim-side reading of a provided vendor: non-blank after trimming for
a string, nonzero for a number. -/
def vendorProvided : JVal → Prop
  | .str s => jsTrim s ≠ ""
  | .num q => q ≠ 0

/-- Claim-side reading of a usable total: it parses to a number strictly
greater than zero. -/
def totalParsesPositive (t : JVal) : Prop :=
  ∃ q, jsParseFloat t = some q ∧ 0 < q

/-! ## Upload page (frontend/src/pages/Upload.jsx) -/

/-- A dropped or selected browser file: its name and its size in bytes. -/
structure JsFile where
  name : String
  size : ℕ
deriving DecidableEq

/-- Outcome of a drop or file-selection event: nothing happens, the error
banner is set without any request, or `processFile` starts the
`uploadInvoice` request for the file. -/
inductive UploadOutcome
  | idle
  | rejected (msg : String)
  | upload (f : JsFile)
deriving DecidableEq

/-- The guard `file.name.toLowerCase().endsWith(".pdf")` shared by both
upload entry points. -/
def pdfNameCheck (f : JsFile) : Bool :=
  jsEndsWith (jsToLowerCase f.name) ".pdf"

/-- `handleFileSelect` from Upload.jsx: no file does nothing; a file whose
lowercased name does not end in .pdf sets the error and stops; otherwise
the upload request is started. -/
def handleFileSelect : Option JsFile → UploadOutcome
  | none => .idle
  | some f =>
    if pdfNameCheck f then .upload f
    else .rejected "Only PDF files are supported"

/-- `handleDrop` from Upload.jsx: same policy applied to the first file of
the drop, with an empty drop doing nothing. -/
def handleDrop : List JsFile → UploadOutcome
  | [] => .idle
  | f :: _ =>
    if pdfNameCheck f then .upload f
    else .rejected "Only PDF files are supported"

/-- The static caption rendered under the drop zone; no code path reads a
file size, so the limit it announces is not enforced. -/
def maxFileSizeNote : String := "Maximum file size: 10MB"

/-- Claim-side reading: the file name ends with .pdf case-insensitively. -/
def endsWithPdf (name : String) : Prop :=
  jsEndsWith (jsToLowerCase name) (jsToLowerCase ".pdf") = true

/-! ## Invoice list page (frontend/src/pages/InvoiceList.jsx) -/

/-- One row of the invoice list as served by the backend. -/
structure Invoice where
  id : ℕ
  file_id : String
  vendor : String
  invoice_number : Option String
  date : Option String
  total : ℚ
  status : String
deriving DecidableEq

/-- `handleDelete` from InvoiceList.jsx, as the function from the state it
reads to the invoice list it leaves displayed: a cancelled confirmation
dialog changes nothing; a successful `deleteInvoice` keeps exactly the
entries whose id differs from the deleted one; a rejected call changes
nothing (only the error banner is set). -/
def handleDelete (confirmed : Bool) (apiSuccess : Bool)
    (invoices : List Invoice) (invoiceId : ℕ) : List Invoice :=
  if ¬ confirmed then invoices
  else if apiSuccess then invoices.filter (fun inv => inv.id ≠ invoiceId)
  else invoices

/-! ## Field-extraction pipeline

The backend module that implements the pipeline (backend/ocr.py together
with the upload route of backend/main.py) is not part of the available
sources; only the specification describes it.  The definitions of this
section are therefore modelled from the specification, and every claim
settled against them says so. -/

/-- Modelled from the spec (section 3, Token): one OCR-recognized unit
with its text, bounding box in page-pixel coordinates, per-token
confidence and page index. -/
structure Token where
  text : String
  x : ℤ
  y : ℤ
  width : ℤ
  height : ℤ
  confidence : ℚ
  page : ℕ
deriving DecidableEq

/-- Modelled from the spec (section 3, PageImage): one rasterized page
with its dimensions, pixel buffer and 1-based page index. -/
structure PageImage where
  width : ℤ
  height : ℤ
  pixels : List ℕ
  index : ℕ
deriving DecidableEq

/-- Modelled from the spec (section 4.1): the input byte stream,
abstracted to whether it is a readable un-encrypted PDF and to the page
images its pages rasterize to. -/
structure PdfBytes where
  valid : Bool
  pages : List PageImage
deriving DecidableEq

/-- Modelled from the spec (section 4.2): the OCR engine behind the
locate contract, with its availability flag and its per-page token
stream. -/
structure OcrEngine where
  available : Bool
  locate : PageImage → List Token

/-- Modelled from the spec (section 4.1): pipeline configuration, the
page-count cap. -/
structure Config where
  maxPages : ℕ

/-- Modelled from the spec (section 7): the two document-level structural
failures surfaced as hard errors to the caller. -/
inductive ExtractError
  | UnreadablePdf
  | PageLimitExceeded
deriving DecidableEq

/-- Modelled from the spec (section 3, FieldCandidate): one extractor
proposal, with the raw text, the typed normalized value, the source
tokens and the extractor-local certainty. -/
structure FieldCandidate (α : Type) where
  raw_value : String
  normalized_value : α
  source_tokens : List Token
  local_certainty : ℚ
deriving DecidableEq

/-! ### Shared recognizer helpers -/

/-- Whether the second character list occurs inside the first. -/
def hasSeg (seg : List Char) : List Char → Bool
  | [] => seg.isEmpty
  | c :: rest => seg.isPrefixOf (c :: rest) || hasSeg seg rest

/-- Splits a character list at every occurrence of a separator. -/
def splitChar (sep : Char) : List Char → List (List Char)
  | [] => [[]]
  | c :: rest =>
    let r := splitChar sep rest
    if c = sep then [] :: r
    else
      match r with
      | h :: t => (c :: h) :: t
      | [] => [[c]]

/-- Distance between two stream positions. -/
def idxDist (a b : ℕ) : ℕ := max a b - min a b

/-! ### Vendor recognizer -/

/-- Modelled from the spec (section 4.3, Vendor): the boilerplate words
excluded from vendor candidates. -/
def boilerplateWords : List String := ["invoice", "bill to", "date", "page"]

def isBoilerplate (s : String) : Bool := boilerplateWords.contains (jsToLowerCase s)

/-- A token text starting with an ASCII capital letter. -/
def isCapitalizedWord (s : String) : Bool :=
  match s.data with
  | c :: _ => decide (65 ≤ c.toNat ∧ c.toNat ≤ 90)
  | [] => false

/-- Strips trailing periods and commas, so that the Co. of Acme Supply Co.
matches the co suffix word. -/
def stripTrailingPunct (s : String) : String :=
  ⟨(s.data.reverse.dropWhile (fun c => c = '.' ∨ c = ',')).reverse⟩

/-- Modelled from the spec (section 4.3, Vendor): the company-suffix
pattern Inc/LLC/Ltd/Co, case-insensitive. -/
def companySuffixWords : List String := ["inc", "llc", "ltd", "co"]

def hasCompanySuffix (s : String) : Bool :=
  companySuffixWords.contains (jsToLowerCase (stripTrailingPunct s))

/-- Eligibility of a token for the vendor heuristic: it sits in the top
quarter of the first page, starts with a capital letter and is not a
boilerplate word. -/
def vendorEligible (firstPage : ℕ) (cutoff : ℤ) (t : Token) : Bool :=
  decide (t.page = firstPage) && decide (t.y ≤ cutoff) &&
    isCapitalizedWord t.text && !(isBoilerplate t.text)

/-- One step of the run grouping, walking the stream from the right: an
eligible token extends the adjacent current run, an ineligible one closes
it. -/
def runsStep (p : Token → Bool) (t : Token) (acc : List Token × List (List Token)) :
    List Token × List (List Token) :=
  if p t then (t :: acc.1, acc.2)
  else ([], if acc.1 = [] then acc.2 else acc.1 :: acc.2)

/-- Maximal runs of consecutive tokens satisfying a predicate, in stream
order. -/
def runs (p : Token → Bool) (ts : List Token) : List (List Token) :=
  let acc := ts.foldr (runsStep p) ([], [])
  if acc.1 = [] then acc.2 else acc.1 :: acc.2

/-- The longest list among the given ones, earliest on ties. -/
def pickLongest : List (List Token) → Option (List Token) :=
  List.foldl
    (fun best r =>
      match best with
      | none => some r
      | some b => if b.length < r.length then some r else some b)
    none

/-- Joins token texts with single spaces. -/
def joinWords : List String → String
  | [] => ""
  | [s] => s
  | s :: rest => s ++ " " ++ joinWords rest

/-- The run the vendor heuristic settles on: the longest eligible run,
with runs containing a company-suffix word strongly preferred when any
exist. -/
def vendorRunChoice (firstPage : ℕ) (cutoff : ℤ) (ts : List Token) :
    Option (List Token) :=
  let rs := runs (vendorEligible firstPage cutoff) ts
  let suffixRuns := rs.filter (fun r => r.any (fun t => hasCompanySuffix t.text))
  pickLongest (if suffixRuns.isEmpty then rs else suffixRuns)

/-- Modelled from the spec (section 4.3, Vendor): prefer the longest
capitalized run of non-boilerplate tokens in the top quarter of the first
page; a run containing a company-suffix word is strongly preferred and
scores the label-anchored certainty 1.0, a plain run scores the fallback
certainty 0.5; no eligible run means no candidate. -/
def extractVendor (firstPage : ℕ) (cutoff : ℤ) (ts : List Token) :
    Option (FieldCandidate String) :=
  match vendorRunChoice firstPage cutoff ts with
  | none => none
  | some run =>
    some
      { raw_value := joinWords (run.map Token.text)
        normalized_value := joinWords (run.map Token.text)
        source_tokens := run
        local_certainty :=
          if run.any (fun t => hasCompanySuffix t.text) then 1 else 0.5 }

/-! ### Date recognizer -/

/-- Digit character of a value below ten. -/
def digitChar (n : ℕ) : Char := Char.ofNat (48 + n % 10)

/-- Decimal digits of a natural number, most significant first, driven by
explicit fuel so that it is structurally recursive. -/
def natDigits (fuel n : ℕ) : List Char :=
  match fuel with
  | 0 => []
  | fuel + 1 =>
    if n < 10 then [digitChar n]
    else natDigits fuel (n / 10) ++ [digitChar (n % 10)]

def natToStr (n : ℕ) : String := ⟨natDigits (n + 1) n⟩

/-- Two-digit zero padding used by the ISO date rendering. -/
def pad2 (n : ℕ) : String := if n < 10 then "0" ++ natToStr n else natToStr n

/-- The ISO rendering YYYY-MM-DD of a parsed date. -/
def isoOfYMD (y m d : ℕ) : String :=
  natToStr y ++ "-" ++ pad2 m ++ "-" ++ pad2 d

/-- Modelled from the spec (section 4.3, Date): the unambiguous ISO
format YYYY-MM-DD. -/
def parseISO (s : String) : Option (ℕ × ℕ × ℕ) :=
  match s.data with
  | [y1, y2, y3, y4, '-', m1, m2, '-', d1, d2] =>
    if [y1, y2, y3, y4, m1, m2, d1, d2].all Char.isDigit then
      let y := digitsVal [y1, y2, y3, y4]
      let m := digitsVal [m1, m2]
      let d := digitsVal [d1, d2]
      if 1 ≤ m ∧ m ≤ 12 ∧ 1 ≤ d ∧ d ≤ 31 then some (y, m, d) else none
    else none
  | _ => none

/-- Modelled from the spec (section 4.3, Date): the slashed numeric
format under the single fixed MM/DD/YYYY locale assumption the spec
requires to be documented rather than inferred per document. -/
def parseSlashed (s : String) : Option (ℕ × ℕ × ℕ) :=
  match splitChar '/' s.data with
  | [mm, dd, yyyy] =>
    if (mm ++ dd ++ yyyy).all Char.isDigit ∧
        1 ≤ mm.length ∧ mm.length ≤ 2 ∧ 1 ≤ dd.length ∧ dd.length ≤ 2 ∧
        yyyy.length = 4 then
      let m := digitsVal mm
      let d := digitsVal dd
      if 1 ≤ m ∧ m ≤ 12 ∧ 1 ≤ d ∧ d ≤ 31 then some (digitsVal yyyy, m, d)
      else none
    else none
  | _ => none

/-- First token carrying a date, trying the ordered format list on each
token in stream order; an unambiguous ISO hit scores certainty 1.0, an
ambiguous slashed hit the fallback 0.5. -/
def firstDate : List Token → Option (Token × (ℕ × ℕ × ℕ) × ℚ)
  | [] => none
  | t :: rest =>
    match parseISO t.text with
    | some ymd => some (t, ymd, 1)
    | none =>
      match parseSlashed t.text with
      | some ymd => some (t, ymd, 0.5)
      | none => firstDate rest

/-- Modelled from the spec (section 4.3, Date): pattern match against the
ordered format list, first match wins, normalized to the ISO rendering;
no matching token means no candidate. -/
def extractDate (ts : List Token) : Option (FieldCandidate String) :=
  match firstDate ts with
  | none => none
  | some (t, (y, m, d), c) =>
    some
      { raw_value := t.text
        normalized_value := isoOfYMD y m d
        source_tokens := [t]
        local_certainty := c }

/-! ### Invoice-number recognizer -/

/-- Modelled from the spec (section 4.3, Invoice number): the label
tokens announcing an invoice number, compared case-insensitively
token-by-token. -/
def invoiceLabelWords : List String := ["invoice#", "inv#", "invoice", "inv"]

def isInvoiceLabel (s : String) : Bool := invoiceLabelWords.contains (jsToLowerCase s)

/-- An alphanumeric-with-separators token that contains a digit. -/
def alnumSep (s : String) : Bool :=
  !s.data.isEmpty &&
    s.data.all (fun c => c.isAlphanum || c = '-' || c = '#') &&
    s.data.any Char.isDigit

/-- The generic fallback pattern such as INV-2024-001: alphanumeric with
a dash separator. -/
def genericSepPattern (s : String) : Bool :=
  alnumSep s && s.data.any (fun c => c = '-')

/-- First token that follows an invoice label and matches the
alphanumeric pattern. -/
def firstLabeled : List Token → Option Token
  | [] => none
  | [_] => none
  | l :: next :: rest =>
    if isInvoiceLabel l.text && alnumSep next.text then some next
    else firstLabeled (next :: rest)

/-- Modelled from the spec (section 4.3, Invoice number): a label-adjacent
alphanumeric token scores the anchored certainty 1.0, otherwise the first
token matching the generic separator pattern scores the fallback 0.5;
otherwise no candidate. -/
def extractInvoiceNumber (ts : List Token) : Option (FieldCandidate String) :=
  match firstLabeled ts with
  | some t => some ⟨t.text, t.text, [t], 1⟩
  | none =>
    match ts.find? (fun t => genericSepPattern t.text) with
    | some t => some ⟨t.text, t.text, [t], 0.5⟩
    | none => none

/-! ### Total recognizer -/

/-- Strips a leading dollar sign or USD marker from a candidate amount. -/
def currencyCore (s : String) : List Char :=
  if s.data.head? = some '$' then s.data.tail
  else if (jsToLowerCase s).data.take 3 = ['u', 's', 'd'] then s.data.drop 3
  else s.data

/-- A numeric pattern with exactly two decimal places, returned as its
integer digits value and its two-decimal digits value. -/
def twoDecimalDigits (l : List Char) : Option (ℕ × ℕ) :=
  match splitChar '.' l with
  | [a, b] =>
    if a ≠ [] ∧ a.all Char.isDigit ∧ b.length = 2 ∧ b.all Char.isDigit then
      some (digitsVal a, digitsVal b)
    else none
  | _ => none

/-- Modelled from the spec (section 4.3, Total): a currency-like token is
a dollar- or USD-marked or bare numeric amount with exactly two decimal
places; its value is returned in cents. -/
def parseCurrency (s : String) : Option ℕ :=
  (twoDecimalDigits (currencyCore s)).map (fun p => 100 * p.1 + p.2)

/-- Modelled from the spec (section 4.3, Total): the total-family label
tokens, case-insensitive. -/
def isTotalLabel (s : String) : Bool :=
  hasSeg "total".data (jsToLowerCase s).data ||
    ["amount due", "balance due"].contains (jsToLowerCase s)

/-- The token window within which a currency token counts as anchored to
a label. -/
def labelWindow : ℕ := 3

/-- Modelled from the spec (section 4.3, Total): among currency-like
tokens anchored within the label window of a total-family label, the one
positioned lowest on the page wins; its normalized value is the amount in
cents and the anchored certainty is 1.0.  No anchored currency token
means no candidate. -/
def extractTotal (ts : List Token) : Option (FieldCandidate ℕ) :=
  let indexed := ts.enum
  let labels := indexed.filter (fun p => isTotalLabel p.2.text)
  let anchored : ℕ → Bool := fun i => labels.any (fun p => idxDist i p.1 ≤ labelWindow)
  let cands :=
    indexed.filterMap
      (fun p =>
        match parseCurrency p.2.text with
        | some cents => if anchored p.1 then some (p.2, cents) else none
        | none => none)
  match cands with
  | [] => none
  | c :: rest =>
    let best := rest.foldl (fun b n => if b.1.y < n.1.y then n else b) c
    some ⟨best.1.text, best.2, [best.1], 1⟩

/-! ### Confidence aggregation and result assembly -/

/-- The decimal value of an amount in cents. -/
def centsToRat (cents : ℕ) : ℚ := (cents : ℚ) / 100

/-- Mean OCR confidence of a list of source tokens. -/
def meanConf (ts : List Token) : ℚ := (ts.map Token.confidence).sum / ts.length

/-- Modelled from the spec (section 4.4): the blended score of a scored
field is the minimum of the mean OCR token confidence of the source
tokens and the extractor-local certainty; a missing candidate scores the
null value with confidence exactly 0.0, bypassing blending. -/
def scoreField {α : Type} : Option (FieldCandidate α) → Option α × ℚ
  | none => (none, 0)
  | some c => (some c.normalized_value, min (meanConf c.source_tokens) c.local_certainty)

/-- Modelled from the spec (section 6): the ExtractionResult contract
handed to the review collaborator. -/
structure ExtractionResult where
  file_id : String
  filename : String
  vendor : Option String
  vendor_confidence : ℚ
  date : Option String
  date_confidence : ℚ
  total : Option ℚ
  total_confidence : ℚ
  invoice_number : Option String
  invoice_number_confidence : ℚ
  degraded : Bool
deriving DecidableEq

/-- Modelled from the spec (sections 4.2 and 9): the degraded-mode result
returned when the OCR engine is unavailable, with every field null at
confidence 0.0 and the degraded flag set. -/
def degradedResult (fid fn : String) : ExtractionResult :=
  { file_id := fid, filename := fn
    vendor := none, vendor_confidence := 0
    date := none, date_confidence := 0
    total := none, total_confidence := 0
    invoice_number := none, invoice_number_confidence := 0
    degraded := true }

/-- Modelled from the spec (sections 2, 4 and 7): the extraction run.
An unreadable byte stream and an over-cap page count are the hard errors
of the rasterizer, surfaced to the caller before any OCR; an unavailable
engine then yields the degraded result rather than an error; otherwise
the per-page token streams are concatenated in page order, the four
recognizers run over the stream, and the scored fields are assembled into
the result. -/
def extract (engine : OcrEngine) (cfg : Config) (pdf : PdfBytes)
    (fid fn : String) : Except ExtractError ExtractionResult :=
  if ¬ pdf.valid then .error .UnreadablePdf
  else if cfg.maxPages < pdf.pages.length then .error .PageLimitExceeded
  else if ¬ engine.available then .ok (degradedResult fid fn)
  else
    let tokens := (pdf.pages.map engine.locate).flatten
    let firstPage := match pdf.pages with | [] => 0 | p :: _ => p.index
    let cutoff := match pdf.pages with | [] => 0 | p :: _ => p.height / 4
    let v := scoreField (extractVendor firstPage cutoff tokens)
    let d := scoreField (extractDate tokens)
    let t := scoreField (extractTotal tokens)
    let n := scoreField (extractInvoiceNumber tokens)
    .ok
      { file_id := fid, filename := fn
        vendor := v.1, vendor_confidence := v.2
        date := d.1, date_confidence := d.2
        total := t.1.map centsToRat, total_confidence := t.2
        invoice_number := n.1, invoice_number_confidence := n.2
        degraded := false }

/-! ## Concrete instances used by the test-style theorems -/

/-- The token page of the specification's total-extraction test: subtotal,
tax and total lines in that vertical order. -/
def demoTokens : List Token :=
  [⟨"Subtotal", 40, 600, 80, 12, 1, 1⟩,
   ⟨"$80.00", 200, 600, 60, 12, 1, 1⟩,
   ⟨"Tax", 40, 630, 40, 12, 1, 1⟩,
   ⟨"$8.00", 200, 630, 50, 12, 1, 1⟩,
   ⟨"Total", 40, 660, 50, 12, 1, 1⟩,
   ⟨"$88.00", 200, 660, 60, 12, 1, 1⟩]

/-- An engine whose native dependency is missing. -/
def sampleEngine : OcrEngine := ⟨false, fun _ => []⟩

/-- A readable empty sample document. -/
def samplePdf : PdfBytes := ⟨true, []⟩

/-- The configured page cap of the sample deployment. -/
def sampleConfig : Config := ⟨20⟩

/-- A readable document one page over the configured cap. -/
def overLimitPdf : PdfBytes := ⟨true, List.replicate 21 ⟨1275, 1650, [], 1⟩⟩

/-- A sample OCR token backing a field candidate. -/
def sampleToken : Token := ⟨"INV-2024-001", 40, 80, 120, 12, 1, 1⟩

/-- A sample unanchored invoice-number candidate. -/
def sampleCandidate : FieldCandidate String :=
  ⟨"INV-2024-001", "INV-2024-001", [sampleToken], 0.5⟩

/-- A fully filled review form. -/
def sampleForm : FormData :=
  ⟨"file-1", "invoice.pdf", .str "Acme Supply Co.", "2024-03-04", .str "5", "INV-2024-001"⟩

/-- A review form with a blank vendor and a zero total. -/
def blockedForm : FormData :=
  ⟨"file-1", "invoice.pdf", .str "  ", "", .str "0", ""⟩

/-- Two invoice rows used by the deletion theorem. -/
def sampleInvoices : List Invoice :=
  [⟨1, "file-1", "Acme Supply Co.", some "INV-1", some "2024-03-04", 88, "draft"⟩,
   ⟨2, "file-2", "Globex", none, none, 12, "approved"⟩]

/-- A dropped file whose name is uppercase and whose size is over the
displayed 10MB limit. -/
def sampleUpload : JsFile := ⟨"Scan.PDF", 20971520⟩

/-! ## Supporting lemmas -/

theorem string_eq_empty_iff (s : String) : s = "" ↔ s.data = [] := by
  constructor
  · intro h; rw [h]
  · intro h; cases s; exact congrArg String.mk h

theorem dropWhile_eq_nil_of_all (p : Char → Bool) (l : List Char)
    (h : ∀ x ∈ l, p x = true) : l.dropWhile p = [] := by
  induction l with
  | nil => rfl
  | cons c t ih =>
    rw [List.dropWhile_cons, if_pos (h c (List.mem_cons_self c t))]
    exact ih fun x hx => h x (List.mem_cons_of_mem c hx)

theorem all_of_dropWhile_eq_nil (p : Char → Bool) (l : List Char)
    (h : l.dropWhile p = []) : ∀ x ∈ l, p x = true := by
  induction l with
  | nil => intro x hx; cases hx
  | cons c t ih =>
    rw [List.dropWhile_cons] at h
    by_cases hc : p c = true
    · rw [if_pos hc] at h
      intro x hx
      rcases List.mem_cons.mp hx with rfl | hx
      · exact hc
      · exact ih h x hx
    · rw [if_neg hc] at h; cases h

/-- If trimming a string leaves nothing, every character was whitespace
and the string already starts with nothing but whitespace. -/
theorem dropWhile_ws_of_trim_empty (s : String) (h : jsTrim s = "") :
    s.data.dropWhile Char.isWhitespace = [] := by
  have hd : trimChars s.data = [] := congrArg String.data h
  unfold trimChars at hd
  rw [List.reverse_eq_nil_iff] at hd
  have hall : ∀ x ∈ (s.data.dropWhile Char.isWhitespace).reverse, x.isWhitespace = true :=
    all_of_dropWhile_eq_nil _ _ hd
  cases hmem : s.data.dropWhile Char.isWhitespace with
  | nil => rfl
  | cons c t =>
    have hhead := List.head?_dropWhile_not Char.isWhitespace s.data
    rw [hmem] at hhead
    simp only [List.head?_cons] at hhead
    have hcall : c.isWhitespace = true :=
      hall c (by rw [hmem]; exact List.mem_reverse.mpr (List.mem_cons_self c t))
    simp [hcall] at hhead

/-- A whitespace-only string parses to NaN. -/
theorem parseFloatParts_none_of_trim_empty (s : String) (h : jsTrim s = "") :
    parseFloatParts s = none := by
  have hd := dropWhile_ws_of_trim_empty s h
  unfold parseFloatParts
  rw [hd]
  rfl

theorem parseFloatQ_none_of_trim_empty (s : String) (h : jsTrim s = "") :
    parseFloatQ s = none := by
  unfold parseFloatQ
  rw [parseFloatParts_none_of_trim_empty s h]
  rfl

theorem jsTrim_empty : jsTrim "" = "" := rfl

theorem vendorErrors_eq_nil (v : JVal) : vendorErrors v = [] ↔ vendorProvided v := by
  cases v with
  | str s =>
    unfold vendorErrors isFalsy vendorProvided
    by_cases hs : s = ""
    · subst hs
      simp [jsTrim_empty]
    · simp only [hs, decide_False, if_false]
      by_cases ht : jsTrim s = "" <;> simp [ht]
  | num q =>
    unfold vendorErrors isFalsy vendorProvided
    by_cases hq : q = 0 <;> simp [hq]

theorem totalErrors_eq_nil (t : JVal) : totalErrors t = [] ↔ totalParsesPositive t := by
  cases t with
  | str s =>
    unfold totalErrors isFalsy totalParsesPositive jsParseFloat
    by_cases hs : s = ""
    · subst hs
      simp [show parseFloatQ "" = none from rfl]
    · simp only [hs, decide_False, if_false]
      by_cases ht : jsTrim s = ""
      · simp [ht, parseFloatQ_none_of_trim_empty s ht]
      · simp only [ht, if_false]
        cases hp : parseFloatQ s with
        | none => simp
        | some q =>
          constructor
          · intro h
            by_cases hq : q ≤ 0
            · simp [hq] at h
            · exact ⟨q, rfl, lt_of_not_le hq⟩
          · rintro ⟨q2, hq2, hpos⟩
            cases hq2
            simp [not_le.mpr hpos]
  | num q =>
    unfold totalErrors isFalsy totalParsesPositive jsParseFloat
    by_cases hq : q = 0
    · simp [hq]
    · simp only [hq, decide_False, if_false]
      by_cases hle : q ≤ 0
      · constructor
        · intro h; simp [hle] at h
        · rintro ⟨q2, hq2, hpos⟩
          cases hq2
          exact absurd hle (not_le.mpr hpos)
      · simp only [hle, if_false]
        exact ⟨fun _ => ⟨q, rfl, lt_of_not_le hle⟩, fun _ => rfl⟩

theorem vendorErrors_cases (v : JVal) :
    vendorErrors v = [] ∨ vendorErrors v = ["Vendor is required"] := by
  unfold vendorErrors
  split
  · right; rfl
  · cases v with
    | str s => by_cases h : jsTrim s = "" <;> simp [h]
    | num q => left; rfl

theorem totalErrors_cases (t : JVal) :
    totalErrors t = [] ∨ totalErrors t = ["Total amount is required"] ∨
      totalErrors t = ["Total amount must be a valid number greater than 0"] := by
  unfold totalErrors
  split
  · right; left; rfl
  · cases t with
    | str s =>
      by_cases h : jsTrim s = ""
      · simp [h]
      · simp only [h, if_false]
        cases parseFloatQ s with
        | none => simp
        | some q => by_cases hq : q ≤ 0 <;> simp [hq]
    | num q => by_cases hq : q ≤ 0 <;> simp [hq]

theorem pdfNameCheck_iff (f : JsFile) : pdfNameCheck f = true ↔ endsWithPdf f.name := by
  unfold pdfNameCheck endsWithPdf
  have h : jsToLowerCase ".pdf" = ".pdf" := rfl
  rw [h]


theorem runsStep_inv (p : Token → Bool) (ts : List Token) :
    (∀ t ∈ (ts.foldr (runsStep p) ([], [])).1, p t = true) ∧
      ∀ r ∈ (ts.foldr (runsStep p) ([], [])).2, r ≠ [] ∧ ∀ t ∈ r, p t = true := by
  induction ts with
  | nil => exact ⟨fun t ht => absurd ht (List.not_mem_nil t), fun r hr => absurd hr (List.not_mem_nil r)⟩
  | cons t ts ih =>
    rw [List.foldr_cons]
    by_cases hp : p t = true
    · have h1 : runsStep p t (ts.foldr (runsStep p) ([], [])) =
          (t :: (ts.foldr (runsStep p) ([], [])).1, (ts.foldr (runsStep p) ([], [])).2) :=
        if_pos hp
      rw [h1]
      refine ⟨?_, ih.2⟩
      intro u hu
      rcases List.mem_cons.mp hu with rfl | hu2
      · exact hp
      · exact ih.1 u hu2
    · have h1 : runsStep p t (ts.foldr (runsStep p) ([], [])) =
          ([], if (ts.foldr (runsStep p) ([], [])).1 = []
            then (ts.foldr (runsStep p) ([], [])).2
            else (ts.foldr (runsStep p) ([], [])).1 :: (ts.foldr (runsStep p) ([], [])).2) :=
        if_neg hp
      rw [h1]
      refine ⟨fun u hu => absurd hu (List.not_mem_nil u), ?_⟩
      by_cases hnil : (ts.foldr (runsStep p) ([], [])).1 = []
      · rw [if_pos hnil]; exact ih.2
      · rw [if_neg hnil]
        intro r hr
        rcases List.mem_cons.mp hr with rfl | hr2
        · exact ⟨hnil, ih.1⟩
        · exact ih.2 r hr2

theorem runs_sound (p : Token → Bool) (ts : List Token) :
    ∀ r ∈ runs p ts, r ≠ [] ∧ ∀ t ∈ r, p t = true := by
  intro r hr
  simp only [runs] at hr
  have hinv := runsStep_inv p ts
  by_cases hnil : (ts.foldr (runsStep p) ([], [])).1 = []
  · rw [if_pos hnil] at hr
    exact hinv.2 r hr
  · rw [if_neg hnil] at hr
    rcases List.mem_cons.mp hr with rfl | hr2
    · exact ⟨hnil, hinv.1⟩
    · exact hinv.2 r hr2

theorem pickLongest_foldl_mem (ls : List (List Token)) :
    ∀ (acc : Option (List Token)) (r : List Token),
      List.foldl
          (fun best r =>
            match best with
            | none => some r
            | some b => if b.length < r.length then some r else some b)
          acc ls = some r →
      acc = some r ∨ r ∈ ls := by
  induction ls with
  | nil => intro acc r h; left; exact h
  | cons x ls ih =>
    intro acc r h
    rw [List.foldl_cons] at h
    rcases ih _ r h with hacc | hmem
    · cases acc with
      | none =>
        have hx : x = r := Option.some.inj hacc
        right
        rw [← hx]
        exact List.mem_cons_self x ls
      | some b =>
        by_cases hl : b.length < x.length
        · have hacc2 : some x = some r := by
            have : (if b.length < x.length then some x else some b) = some r := hacc
            rwa [if_pos hl] at this
          have hx : x = r := Option.some.inj hacc2
          right
          rw [← hx]
          exact List.mem_cons_self x ls
        · have hacc2 : some b = some r := by
            have : (if b.length < x.length then some x else some b) = some r := hacc
            rwa [if_neg hl] at this
          left; exact hacc2
    · right; exact List.mem_cons_of_mem x hmem

theorem pickLongest_mem (ls : List (List Token)) (r : List Token)
    (h : pickLongest ls = some r) : r ∈ ls := by
  rcases pickLongest_foldl_mem ls none r h with hacc | hmem
  · cases hacc
  · exact hmem

theorem string_append_ne_empty_right (a b c : String) (hb : b.length = 1) :
    a ++ b ++ c ≠ "" := by
  intro h
  have hlen := congrArg String.length h
  rw [String.length_append, String.length_append, hb] at hlen
  simp at hlen

theorem joinWords_ne_empty (l : List String) (hne : l ≠ [])
    (hall : ∀ s ∈ l, s ≠ "") : joinWords l ≠ "" := by
  cases l with
  | nil => exact absurd rfl hne
  | cons s rest =>
    cases rest with
    | nil => exact hall s (List.mem_singleton.mpr rfl)
    | cons t rest2 =>
      show s ++ " " ++ joinWords (t :: rest2) ≠ ""
      exact string_append_ne_empty_right s " " (joinWords (t :: rest2)) rfl

theorem ne_empty_of_isCapitalizedWord (s : String)
    (h : isCapitalizedWord s = true) : s ≠ "" := by
  intro he
  rw [he] at h
  exact absurd h (by decide)

theorem ne_empty_of_alnumSep (s : String) (h : alnumSep s = true) : s ≠ "" := by
  intro he
  rw [he] at h
  exact absurd h (by decide)

theorem vendorRunChoice_mem (firstPage : ℕ) (cutoff : ℤ) (ts : List Token)
    (run : List Token) (h : vendorRunChoice firstPage cutoff ts = some run) :
    run ∈ runs (vendorEligible firstPage cutoff) ts := by
  simp only [vendorRunChoice] at h
  have hmem := pickLongest_mem _ _ h
  by_cases hs : ((runs (vendorEligible firstPage cutoff) ts).filter
      (fun r => r.any (fun t => hasCompanySuffix t.text))).isEmpty = true
  · rw [if_pos hs] at hmem; exact hmem
  · rw [if_neg hs] at hmem
    exact List.mem_of_mem_filter hmem

theorem extractVendor_value_ne_empty (firstPage : ℕ) (cutoff : ℤ)
    (ts : List Token) (c : FieldCandidate String)
    (h : extractVendor firstPage cutoff ts = some c) : c.normalized_value ≠ "" := by
  unfold extractVendor at h
  cases hm : vendorRunChoice firstPage cutoff ts with
  | none => rw [hm] at h; cases h
  | some run =>
    rw [hm] at h
    have hc := Option.some.inj h
    have hrun := vendorRunChoice_mem firstPage cutoff ts run hm
    have hsound := runs_sound _ ts run hrun
    have hval : c.normalized_value = joinWords (run.map Token.text) := by
      rw [← hc]
    rw [hval]
    apply joinWords_ne_empty
    · intro hmapnil
      exact hsound.1 (List.map_eq_nil_iff.mp hmapnil)
    · intro s hs
      rcases List.mem_map.mp hs with ⟨t, ht, rfl⟩
      have helig := hsound.2 t ht
      unfold vendorEligible at helig
      have hcap : isCapitalizedWord t.text = true := by
        rcases Bool.and_eq_true_iff.mp helig with ⟨h1, _⟩
        rcases Bool.and_eq_true_iff.mp h1 with ⟨_, h3⟩
        exact h3
      exact ne_empty_of_isCapitalizedWord _ hcap

theorem isoOfYMD_ne_empty (y m d : ℕ) : isoOfYMD y m d ≠ "" := by
  unfold isoOfYMD
  intro h
  have hlen := congrArg String.length h
  rw [String.length_append, String.length_append, String.length_append] at hlen
  simp at hlen
  exact absurd hlen.1.1.1.2 (by decide)

theorem extractDate_value_ne_empty (ts : List Token) (c : FieldCandidate String)
    (h : extractDate ts = some c) : c.normalized_value ≠ "" := by
  unfold extractDate at h
  cases hf : firstDate ts with
  | none => rw [hf] at h; cases h
  | some p =>
    rw [hf] at h
    rcases p with ⟨t, ⟨y, m, d⟩, q⟩
    have hc := Option.some.inj h
    have hval : c.normalized_value = isoOfYMD y m d := by rw [← hc]
    rw [hval]
    exact isoOfYMD_ne_empty y m d

theorem firstLabeled_alnum (ts : List Token) (t : Token)
    (h : firstLabeled ts = some t) : alnumSep t.text = true := by
  induction ts with
  | nil => cases h
  | cons a rest ih =>
    cases rest with
    | nil => cases h
    | cons b rest2 =>
      rw [firstLabeled] at h
      by_cases hc : (isInvoiceLabel a.text && alnumSep b.text) = true
      · rw [if_pos hc] at h
        have hb : b = t := Option.some.inj h
        rw [← hb]
        exact (Bool.and_eq_true_iff.mp hc).2
      · rw [if_neg hc] at h
        exact ih h

theorem extractInvoiceNumber_value_ne_empty (ts : List Token)
    (c : FieldCandidate String) (h : extractInvoiceNumber ts = some c) :
    c.normalized_value ≠ "" := by
  unfold extractInvoiceNumber at h
  cases hl : firstLabeled ts with
  | some t =>
    rw [hl] at h
    have hc := Option.some.inj h
    have hval : c.normalized_value = t.text := by rw [← hc]
    rw [hval]
    exact ne_empty_of_alnumSep _ (firstLabeled_alnum ts t hl)
  | none =>
    rw [hl] at h
    cases hf : ts.find? (fun t => genericSepPattern t.text) with
    | none => rw [hf] at h; cases h
    | some t =>
      rw [hf] at h
      have hc := Option.some.inj h
      have hval : c.normalized_value = t.text := by rw [← hc]
      have hg := List.find?_some hf
      have hg2 : genericSepPattern t.text = true := hg
      unfold genericSepPattern at hg2
      have ha : alnumSep t.text = true := (Bool.and_eq_true_iff.mp hg2).1
      rw [hval]
      exact ne_empty_of_alnumSep _ ha

theorem scoreField_none_confidence {α : Type} (o : Option (FieldCandidate α))
    (h : (scoreField o).1 = none) : (scoreField o).2 = 0 := by
  cases o with
  | none => rfl
  | some c => cases h

theorem scoreField_some_value {α : Type} (o : Option (FieldCandidate α)) (s : α)
    (h : (scoreField o).1 = some s) : ∃ c, o = some c ∧ c.normalized_value = s := by
  cases o with
  | none => cases h
  | some c => exact ⟨c, rfl, Option.some.inj h⟩

theorem list_sum_le_length (l : List ℚ) (h : ∀ x ∈ l, x ≤ 1) :
    l.sum ≤ (l.length : ℚ) := by
  induction l with
  | nil => simp
  | cons x t ih =>
    rw [List.sum_cons, List.length_cons]
    push_cast
    have hx : x ≤ 1 := h x (List.mem_cons_self x t)
    have ht : t.sum ≤ (t.length : ℚ) := ih fun y hy => h y (List.mem_cons_of_mem x hy)
    linarith

theorem meanConf_bounds (ts : List Token) (hne : ts ≠ [])
    (h : ∀ t ∈ ts, 0 ≤ t.confidence ∧ t.confidence ≤ 1) :
    0 ≤ meanConf ts ∧ meanConf ts ≤ 1 := by
  unfold meanConf
  have hlen : 0 < (ts.length : ℚ) := by
    have := List.length_pos.mpr hne
    exact_mod_cast this
  constructor
  · apply div_nonneg _ (le_of_lt hlen)
    apply List.sum_nonneg
    intro x hx
    rcases List.mem_map.mp hx with ⟨t, ht, rfl⟩
    exact (h t ht).1
  · rw [div_le_one hlen]
    have : (ts.map Token.confidence).sum ≤ ((ts.map Token.confidence).length : ℚ) := by
      apply list_sum_le_length
      intro x hx
      rcases List.mem_map.mp hx with ⟨t, ht, rfl⟩
      exact (h t ht).2
    rwa [List.length_map] at this

/-! ## Claim theorems -/

/-- C1: Confidence-band classification is fixed for every confidence value
in the unit interval: a score of at least 0.8 is classified high
confidence, a score strictly between 0 and 0.8 is classified low
confidence and is highlighted for review, and a score of exactly 0 is
classified not detected. -/
theorem confidence_bands_fixed (score : ℚ) (h0 : 0 ≤ score) (h1 : score ≤ 1) :
    (0.8 ≤ score → ConfidenceBadge score = .high) ∧
    (0 < score → score < 0.8 →
      ConfidenceBadge score = .low ∧ LowConfidenceHighlight score = true) ∧
    (score = 0 → ConfidenceBadge score = .notDetected) := by
  refine ⟨?_, ?_, ?_⟩
  · intro h
    unfold ConfidenceBadge
    rw [if_pos h]
  · intro hp hlt
    constructor
    · unfold ConfidenceBadge
      rw [if_neg (not_le.mpr hlt), if_pos hp]
    · unfold LowConfidenceHighlight
      rw [decide_eq_true hlt, decide_eq_true hp]
      rfl
  · intro h
    subst h
    unfold ConfidenceBadge
    rw [if_neg (by norm_num), if_neg (by norm_num)]

/-- Witness for C1 at the concrete score one half. -/
theorem confidence_bands_fixed_witness :
    (0 : ℚ) ≤ 1 / 2 ∧ (1 / 2 : ℚ) ≤ 1 ∧
      ConfidenceBadge (1 / 2) = .low ∧ LowConfidenceHighlight (1 / 2) = true :=
  ⟨by norm_num, by norm_num,
    (confidence_bands_fixed (1 / 2) (by norm_num) (by norm_num)).2.1
      (by norm_num) (by norm_num)⟩

/-- C9: an upload request is initiated if and only if the dropped or
selected file name ends case-insensitively in .pdf; otherwise the error
banner reads Only PDF files are supported and no request is made; the
decision ignores the file size entirely, even above the displayed 10MB
limit. -/
theorem upload_pdf_gate (f : JsFile) (rest : List JsFile) :
    (handleFileSelect (some f) = .upload f ↔ endsWithPdf f.name) ∧
    (handleDrop (f :: rest) = .upload f ↔ endsWithPdf f.name) ∧
    (¬ endsWithPdf f.name →
      handleFileSelect (some f) = .rejected "Only PDF files are supported" ∧
      handleDrop (f :: rest) = .rejected "Only PDF files are supported") ∧
    (∀ n : ℕ,
      (handleFileSelect (some ⟨f.name, n⟩) = .upload ⟨f.name, n⟩ ↔
        handleFileSelect (some f) = .upload f)) ∧
    (∀ n : ℕ, 10 * 1024 * 1024 < n → endsWithPdf f.name →
      handleFileSelect (some ⟨f.name, n⟩) = .upload ⟨f.name, n⟩) := by
  have hsel : ∀ g : JsFile, pdfNameCheck g = true →
      handleFileSelect (some g) = .upload g := by
    intro g hg
    simp only [handleFileSelect]
    rw [if_pos hg]
  have hselneg : ∀ g : JsFile, ¬ pdfNameCheck g = true →
      handleFileSelect (some g) = .rejected "Only PDF files are supported" := by
    intro g hg
    simp only [handleFileSelect]
    rw [if_neg hg]
  have hname : ∀ n : ℕ, pdfNameCheck ⟨f.name, n⟩ = pdfNameCheck f := fun _ => rfl
  refine ⟨?_, ?_, ?_, ?_, ?_⟩
  · constructor
    · intro h
      by_contra hend
      have hchk : ¬ pdfNameCheck f = true := fun hc => hend ((pdfNameCheck_iff f).mp hc)
      rw [hselneg f hchk] at h
      cases h
    · intro hend
      exact hsel f ((pdfNameCheck_iff f).mpr hend)
  · constructor
    · intro h
      by_contra hend
      have hchk : ¬ pdfNameCheck f = true := fun hc => hend ((pdfNameCheck_iff f).mp hc)
      simp only [handleDrop] at h
      rw [if_neg hchk] at h
      cases h
    · intro hend
      simp only [handleDrop]
      rw [if_pos ((pdfNameCheck_iff f).mpr hend)]
  · intro hend
    have hchk : ¬ pdfNameCheck f = true := fun hc => hend ((pdfNameCheck_iff f).mp hc)
    refine ⟨hselneg f hchk, ?_⟩
    simp only [handleDrop]
    rw [if_neg hchk]
  · intro n
    by_cases hchk : pdfNameCheck f = true
    · rw [hsel f hchk, hsel ⟨f.name, n⟩ (by rw [hname n]; exact hchk)]
      exact ⟨fun _ => rfl, fun _ => rfl⟩
    · rw [hselneg f hchk, hselneg ⟨f.name, n⟩ (by rw [hname n]; exact hchk)]
      constructor
      · intro h; cases h
      · intro h; cases h
  · intro n _ hend
    exact hsel ⟨f.name, n⟩ (by rw [hname n]; exact (pdfNameCheck_iff f).mpr hend)

/-- Witness for C9 at an uppercase file name over the displayed size
limit. -/
theorem upload_pdf_gate_witness :
    handleFileSelect (some sampleUpload) = .upload sampleUpload :=
  (upload_pdf_gate sampleUpload []).1.mpr (by unfold endsWithPdf; decide)

/-- C10: a confirmed and successful delete leaves exactly the entries
whose id differs from the deleted id, unchanged and in order; a cancelled
confirmation dialog or a failed API call leaves the list unchanged. -/
theorem delete_filters_exact_id (invoices : List Invoice) (invoiceId : ℕ) :
    (∀ apiSuccess, handleDelete false apiSuccess invoices invoiceId = invoices) ∧
    handleDelete true false invoices invoiceId = invoices ∧
    handleDelete true true invoices invoiceId =
      invoices.filter (fun inv => inv.id ≠ invoiceId) ∧
    (∀ inv ∈ handleDelete true true invoices invoiceId, inv.id ≠ invoiceId) ∧
    (handleDelete true true invoices invoiceId).Sublist invoices ∧
    (∀ inv ∈ invoices, inv.id ≠ invoiceId →
      inv ∈ handleDelete true true invoices invoiceId) := by
  have hdel : handleDelete true true invoices invoiceId =
      invoices.filter (fun inv => inv.id ≠ invoiceId) := rfl
  refine ⟨fun _ => rfl, rfl, hdel, ?_, ?_, ?_⟩
  · intro inv hm
    rw [hdel] at hm
    exact of_decide_eq_true (List.mem_filter.mp hm).2
  · rw [hdel]
    exact List.filter_sublist invoices
  · intro inv hm hne
    rw [hdel]
    exact List.mem_filter.mpr ⟨hm, decide_eq_true hne⟩

/-- Witness for C10 on a concrete two-invoice list. -/
theorem delete_filters_exact_id_witness :
    handleDelete true true sampleInvoices 1 =
      sampleInvoices.filter (fun inv => inv.id ≠ 1) :=
  (delete_filters_exact_id sampleInvoices 1).2.2.1

/-- C3: when the OCR engine is unavailable, an extraction run on a
readable document within the page cap does not signal an error and does
not fail the upload: it returns the degraded result, with the degraded
flag set and all four fields null at confidence exactly 0.0. -/
theorem degraded_mode_no_failure (engine : OcrEngine) (cfg : Config)
    (pdf : PdfBytes) (fid fn : String) (hv : pdf.valid = true)
    (hp : pdf.pages.length ≤ cfg.maxPages) (he : engine.available = false) :
    extract engine cfg pdf fid fn = .ok (degradedResult fid fn) ∧
    (degradedResult fid fn).degraded = true ∧
    (degradedResult fid fn).vendor = none ∧
    (degradedResult fid fn).vendor_confidence = 0 ∧
    (degradedResult fid fn).date = none ∧
    (degradedResult fid fn).date_confidence = 0 ∧
    (degradedResult fid fn).total = none ∧
    (degradedResult fid fn).total_confidence = 0 ∧
    (degradedResult fid fn).invoice_number = none ∧
    (degradedResult fid fn).invoice_number_confidence = 0 := by
  refine ⟨?_, rfl, rfl, rfl, rfl, rfl, rfl, rfl, rfl, rfl⟩
  unfold extract
  rw [if_neg (by rw [hv]; exact fun hcon => hcon rfl),
    if_neg (not_lt.mpr hp), if_pos (by rw [he]; exact Bool.false_ne_true)]

/-- Witness for C3: the unavailable sample engine on the readable empty
document. -/
theorem degraded_mode_no_failure_witness :
    samplePdf.valid = true ∧ samplePdf.pages.length ≤ sampleConfig.maxPages ∧
    sampleEngine.available = false ∧
    extract sampleEngine sampleConfig samplePdf "file-1" "invoice.pdf" =
      .ok (degradedResult "file-1" "invoice.pdf") :=
  ⟨rfl, by decide, rfl,
    (degraded_mode_no_failure sampleEngine sampleConfig samplePdf
      "file-1" "invoice.pdf" rfl (by decide) rfl).1⟩

/-- C5: a readable document whose page count exceeds the configured
maximum fails with the hard error PageLimitExceeded and produces no
ExtractionResult, not even a partial one. -/
theorem page_limit_exceeded_hard_error (engine : OcrEngine) (cfg : Config)
    (pdf : PdfBytes) (fid fn : String) (hv : pdf.valid = true)
    (hp : cfg.maxPages < pdf.pages.length) :
    extract engine cfg pdf fid fn = .error .PageLimitExceeded ∧
    ∀ r, extract engine cfg pdf fid fn ≠ .ok r := by
  have h : extract engine cfg pdf fid fn = .error .PageLimitExceeded := by
    unfold extract
    rw [if_neg (by rw [hv]; exact fun hcon => hcon rfl), if_pos hp]
  refine ⟨h, fun r hr => ?_⟩
  rw [h] at hr
  cases hr

/-- Witness for C5: the 21-page sample document against the cap of 20. -/
theorem page_limit_exceeded_hard_error_witness :
    overLimitPdf.valid = true ∧
    sampleConfig.maxPages < overLimitPdf.pages.length ∧
    extract sampleEngine sampleConfig overLimitPdf "file-1" "invoice.pdf" =
      .error .PageLimitExceeded :=
  ⟨rfl, by decide,
    (page_limit_exceeded_hard_error sampleEngine sampleConfig overLimitPdf
      "file-1" "invoice.pdf" rfl (by decide)).1⟩

/-- C7: extraction is deterministic: the run is a pure function of the
engine, the configuration and the input bytes, with no clock or random
input, so byte-identical inputs give identical ExtractionResults. -/
theorem extract_deterministic (engine : OcrEngine) (cfg : Config)
    (fid fn : String) (pdf1 pdf2 : PdfBytes) (h : pdf1 = pdf2) :
    extract engine cfg pdf1 fid fn = extract engine cfg pdf2 fid fn := by
  rw [h]

/-- Witness for C7 on the sample document. -/
theorem extract_deterministic_witness :
    samplePdf = samplePdf ∧
    extract sampleEngine sampleConfig samplePdf "file-1" "invoice.pdf" =
      extract sampleEngine sampleConfig samplePdf "file-1" "invoice.pdf" :=
  ⟨rfl, extract_deterministic sampleEngine sampleConfig "file-1" "invoice.pdf"
    samplePdf samplePdf rfl⟩

/-- C4: for a field with a candidate whose tokens carry confidences in
the unit interval and whose local certainty is in the unit interval, the
blended confidence equals the minimum of the mean OCR token confidence
and the local certainty, lies in the unit interval, and never exceeds
either input. -/
theorem blended_confidence_min {α : Type} (c : FieldCandidate α)
    (hne : c.source_tokens ≠ [])
    (hconf : ∀ t ∈ c.source_tokens, 0 ≤ t.confidence ∧ t.confidence ≤ 1)
    (hloc : 0 ≤ c.local_certainty ∧ c.local_certainty ≤ 1) :
    (scoreField (some c)).2 = min (meanConf c.source_tokens) c.local_certainty ∧
    0 ≤ (scoreField (some c)).2 ∧ (scoreField (some c)).2 ≤ 1 ∧
    (scoreField (some c)).2 ≤ meanConf c.source_tokens ∧
    (scoreField (some c)).2 ≤ c.local_certainty := by
  have hmean := meanConf_bounds c.source_tokens hne hconf
  have hval : (scoreField (some c)).2 =
      min (meanConf c.source_tokens) c.local_certainty := rfl
  refine ⟨hval, ?_, ?_, ?_, ?_⟩
  · rw [hval]; exact le_min hmean.1 hloc.1
  · rw [hval]; exact le_trans (min_le_left _ _) hmean.2
  · rw [hval]; exact min_le_left _ _
  · rw [hval]; exact min_le_right _ _

/-- Witness for C4 at the sample unanchored candidate. -/
theorem blended_confidence_min_witness :
    sampleCandidate.source_tokens ≠ [] ∧
    (∀ t ∈ sampleCandidate.source_tokens,
      0 ≤ t.confidence ∧ t.confidence ≤ 1) ∧
    (0 ≤ sampleCandidate.local_certainty ∧ sampleCandidate.local_certainty ≤ 1) ∧
    ((scoreField (some sampleCandidate)).2 =
        min (meanConf sampleCandidate.source_tokens)
          sampleCandidate.local_certainty ∧
      0 ≤ (scoreField (some sampleCandidate)).2 ∧
      (scoreField (some sampleCandidate)).2 ≤ 1 ∧
      (scoreField (some sampleCandidate)).2 ≤ meanConf sampleCandidate.source_tokens ∧
      (scoreField (some sampleCandidate)).2 ≤ sampleCandidate.local_certainty) := by
  have h1 : sampleCandidate.source_tokens ≠ [] := by decide
  have h2 : ∀ t ∈ sampleCandidate.source_tokens,
      0 ≤ t.confidence ∧ t.confidence ≤ 1 := by
    intro t ht
    have : t = sampleToken := by
      rcases List.mem_singleton.mp ht with rfl
      rfl
    rw [this]
    constructor <;> norm_num [sampleToken]
  have h3 : 0 ≤ sampleCandidate.local_certainty ∧
      sampleCandidate.local_certainty ≤ 1 := by
    constructor <;> norm_num [sampleCandidate]
  exact ⟨h1, h2, h3, blended_confidence_min sampleCandidate h1 h2 h3⟩

/-- C6: on the specification's test page, where subtotal, tax and total
rows appear in that vertical order, the extracted total is 88.00 and not
80.00 or 8.00. -/
theorem total_extraction_lowest_total_label :
    (extractTotal demoTokens).map (fun c => ((c.normalized_value : ℚ) / 100)) =
      some 88 ∧
    (extractTotal demoTokens).map (fun c => ((c.normalized_value : ℚ) / 100)) ≠
      some 80 ∧
    (extractTotal demoTokens).map (fun c => ((c.normalized_value : ℚ) / 100)) ≠
      some 8 := by
  have h : extractTotal demoTokens =
      some ⟨"$88.00", 8800, [⟨"$88.00", 200, 660, 60, 12, 1, 1⟩], 1⟩ := by
    decide
  rw [h]
  refine ⟨?_, ?_, ?_⟩
  · simp only [Option.map_some']
    norm_num
  · simp only [Option.map_some', ne_eq, Option.some.injEq]
    norm_num
  · simp only [Option.map_some', ne_eq, Option.some.injEq]
    norm_num

/-- C2: in every ExtractionResult, an absent field is null with
confidence exactly 0.0, and a present string field is never the empty
string, so a consumer can distinguish not-found from found-but-low
quality. -/
theorem extraction_absence_invariant (engine : OcrEngine) (cfg : Config)
    (pdf : PdfBytes) (fid fn : String) (r : ExtractionResult)
    (h : extract engine cfg pdf fid fn = .ok r) :
    (r.vendor = none → r.vendor_confidence = 0) ∧
    (∀ s, r.vendor = some s → s ≠ "") ∧
    (r.date = none → r.date_confidence = 0) ∧
    (∀ s, r.date = some s → s ≠ "") ∧
    (r.total = none → r.total_confidence = 0) ∧
    (r.invoice_number = none → r.invoice_number_confidence = 0) ∧
    (∀ s, r.invoice_number = some s → s ≠ "") := by
  simp only [extract] at h
  split at h
  · cases h
  · split at h
    · cases h
    · split at h
      · -- degraded-mode result
        have hr : degradedResult fid fn = r := Except.ok.inj h
        rw [← hr]
        refine ⟨fun _ => rfl, ?_, fun _ => rfl, ?_, fun _ => rfl, fun _ => rfl, ?_⟩
        all_goals intro s hs; cases hs
      · -- full extraction
        have hr := Except.ok.inj h
        rw [← hr]
        refine ⟨?_, ?_, ?_, ?_, ?_, ?_, ?_⟩
        · exact fun hn => scoreField_none_confidence _ hn
        · intro s hs
          rcases scoreField_some_value _ s hs with ⟨c, hc, hval⟩
          rw [← hval]
          exact extractVendor_value_ne_empty _ _ _ c hc
        · exact fun hn => scoreField_none_confidence _ hn
        · intro s hs
          rcases scoreField_some_value _ s hs with ⟨c, hc, hval⟩
          rw [← hval]
          exact extractDate_value_ne_empty _ c hc
        · intro hn
          exact scoreField_none_confidence _ (Option.map_eq_none'.mp hn)
        · exact fun hn => scoreField_none_confidence _ hn
        · intro s hs
          rcases scoreField_some_value _ s hs with ⟨c, hc, hval⟩
          rw [← hval]
          exact extractInvoiceNumber_value_ne_empty _ c hc

/-- Witness for C2: the degraded run on the sample document. -/
theorem extraction_absence_invariant_witness :
    ((degradedResult "file-1" "invoice.pdf").vendor = none →
      (degradedResult "file-1" "invoice.pdf").vendor_confidence = 0) ∧
    (∀ s, (degradedResult "file-1" "invoice.pdf").vendor = some s → s ≠ "") ∧
    ((degradedResult "file-1" "invoice.pdf").date = none →
      (degradedResult "file-1" "invoice.pdf").date_confidence = 0) ∧
    (∀ s, (degradedResult "file-1" "invoice.pdf").date = some s → s ≠ "") ∧
    ((degradedResult "file-1" "invoice.pdf").total = none →
      (degradedResult "file-1" "invoice.pdf").total_confidence = 0) ∧
    ((degradedResult "file-1" "invoice.pdf").invoice_number = none →
      (degradedResult "file-1" "invoice.pdf").invoice_number_confidence = 0) ∧
    (∀ s, (degradedResult "file-1" "invoice.pdf").invoice_number = some s →
      s ≠ "") :=
  extraction_absence_invariant sampleEngine sampleConfig samplePdf
    "file-1" "invoice.pdf" (degradedResult "file-1" "invoice.pdf") rfl

/-- C8: the createInvoice call of a save or reject happens exactly when
the vendor is provided and the total parses to a positive number;
otherwise a nonempty validation message is shown and no call is made; a
submitted payload carries parseFloat of the form total and sends null in
place of every empty optional field. -/
theorem handleSave_validation_gate (status : String) (fd : FormData) :
    ((∃ p, handleSave status fd = .call p) ↔
      vendorProvided fd.vendor ∧ totalParsesPositive fd.total) ∧
    (∀ p, handleSave status fd = .call p →
      p.total = jsParseFloat fd.total ∧
      (∃ q, p.total = some q ∧ 0 < q) ∧
      (fd.filename = "" → p.filename = none) ∧ p.filename ≠ some "" ∧
      (fd.date = "" → p.date = none) ∧ p.date ≠ some "" ∧
      (fd.invoice_number = "" → p.invoice_number = none) ∧
      p.invoice_number ≠ some "" ∧ p.status = status) ∧
    (¬ (vendorProvided fd.vendor ∧ totalParsesPositive fd.total) →
      ∃ msg, handleSave status fd = .blocked msg ∧ msg ≠ "") := by
  by_cases hvt : vendorErrors fd.vendor ++ totalErrors fd.total = []
  · have hv : vendorErrors fd.vendor = [] := (List.append_eq_nil.mp hvt).1
    have ht : totalErrors fd.total = [] := (List.append_eq_nil.mp hvt).2
    have hcall : handleSave status fd = .call
        { file_id := fd.file_id
          filename := if fd.filename = "" then none else some fd.filename
          vendor := fd.vendor
          date := if fd.date = "" then none else some fd.date
          total := jsParseFloat fd.total
          invoice_number :=
            if fd.invoice_number = "" then none else some fd.invoice_number
          status := status } := by
      simp only [handleSave, hvt]
      rw [if_neg (fun hcon => hcon rfl)]
    refine ⟨?_, ?_, ?_⟩
    · exact ⟨fun _ => ⟨(vendorErrors_eq_nil _).mp hv, (totalErrors_eq_nil _).mp ht⟩,
        fun _ => ⟨_, hcall⟩⟩
    · intro p hp
      rw [hcall] at hp
      injection hp with hpe
      rw [← hpe]
      refine ⟨rfl, (totalErrors_eq_nil _).mp ht, ?_, ?_, ?_, ?_, ?_, ?_, rfl⟩
      · intro hf; simp [hf]
      · by_cases hf : fd.filename = "" <;> simp [hf]
      · intro hf; simp [hf]
      · by_cases hf : fd.date = "" <;> simp [hf]
      · intro hf; simp [hf]
      · by_cases hf : fd.invoice_number = "" <;> simp [hf]
    · intro hcon
      exact absurd ⟨(vendorErrors_eq_nil _).mp hv, (totalErrors_eq_nil _).mp ht⟩ hcon
  · have hblocked : handleSave status fd =
        .blocked (String.intercalate ". "
          (vendorErrors fd.vendor ++ totalErrors fd.total)) := by
      simp only [handleSave]
      rw [if_pos hvt]
    have hprov : ¬ (vendorProvided fd.vendor ∧ totalParsesPositive fd.total) := by
      rintro ⟨h1, h2⟩
      apply hvt
      rw [(vendorErrors_eq_nil _).mpr h1, (totalErrors_eq_nil _).mpr h2]
      rfl
    refine ⟨?_, ?_, ?_⟩
    · constructor
      · rintro ⟨p, hp⟩
        rw [hblocked] at hp
        cases hp
      · intro hcon
        exact absurd hcon hprov
    · intro p hp
      rw [hblocked] at hp
      cases hp
    · intro _
      refine ⟨_, hblocked, ?_⟩
      rcases vendorErrors_cases fd.vendor with hv | hv <;>
        rcases totalErrors_cases fd.total with ht | ht | ht <;>
        first
          | (rw [hv, ht] at hvt; exact absurd rfl hvt)
          | (rw [hv, ht]; decide)

/-- Witness for C8: the filled sample form passes validation and the
blocked sample form does not. -/
theorem handleSave_validation_gate_witness :
    (∃ p, handleSave "approved" sampleForm = .call p) ∧
    (∃ msg, handleSave "approved" blockedForm = .blocked msg ∧ msg ≠ "") := by
  constructor
  · apply (handleSave_validation_gate "approved" sampleForm).1.mpr
    constructor
    · show jsTrim "Acme Supply Co." ≠ ""
      decide
    · refine ⟨floatOfParts (false, 5, [], 0), ?_, ?_⟩
      · show parseFloatQ "5" = some (floatOfParts (false, 5, [], 0))
        unfold parseFloatQ
        rw [show parseFloatParts "5" = some (false, 5, [], 0) from by decide]
        rfl
      · norm_num [floatOfParts, digitsVal]
  · apply (handleSave_validation_gate "approved" blockedForm).2.2
    rintro ⟨h1, _⟩
    revert h1
    show ¬ (jsTrim "  " ≠ "")
    decide

end Billie
